import Mathlib

/-! Shallow embedding of the persistence layer of `src/app.js` (Pocket Verse):
an IndexedDB-backed record store for Authors and Pieces with indexed listing,
cascading author deletion, and JSON export/import.  Both object stores are
modelled as lists kept in primary-key (ascending `id`) order, which is the
order every IndexedDB cursor iterates in; the auto-increment key generators
are carried alongside. -/

/-- Author record as stored in the `authors` object store: the object literal
`{ name, category, createdAt }` of `addAuthor` plus the `id` injected through
the store's key path. -/
structure Author where
  id : Nat
  name : String
  category : String
  createdAt : Nat
deriving Repr, DecidableEq

/-- Piece record as stored in the `pieces` object store by `addPiece`
(src/app.js:109-122). -/
structure Piece where
  id : Nat
  authorId : Nat
  title : String
  text : String
  favorite : Bool
  createdAt : Nat
deriving Repr, DecidableEq

/-- State of the IndexedDB database `pocket-verse-db`: the two object stores,
each holding its records in ascending key order, and their auto-increment key
generators. -/
structure Store where
  authors : List Author
  pieces : List Piece
  nextAuthorId : Nat
  nextPieceId : Nat
deriving Repr, DecidableEq

/-- Representation invariant of `Store`: records sit in strictly ascending key
order (IndexedDB stores records sorted by key, and keys are unique). -/
def Store.WF (st : Store) : Prop :=
  st.authors.Pairwise (fun a b => a.id < b.id) ∧
    st.pieces.Pairwise (fun a b => a.id < b.id)

instance (st : Store) : Decidable st.WF := by
  unfold Store.WF; infer_instance

/-- A key as passed by a caller to the store operations: the stores use numeric
auto-increment keys, but a call site may hold the id as a number or as its
string form. -/
inductive Key where
  | num : Nat → Key
  | str : String → Key
deriving Repr, DecidableEq

/-- Value of a decimal-digit character list, `none` when the list is empty or
holds a non-digit. -/
def digitsVal (cs : List Char) : Option Nat :=
  if cs.isEmpty then none
  else if cs.all Char.isDigit then
    some (cs.foldl (fun n c => n * 10 + (c.toNat - 48)) 0)
  else none

/-- Result of the JavaScript conversion `Number(k)` on the key forms the app
manipulates: a number stays itself, `Number('') = 0`, and a string of decimal
digits denotes the corresponding natural number.  `none` stands for any other
result (`NaN`, negative or fractional values), which matches no auto-increment
key: a lookup finds nothing and a delete hits nothing. -/
def jsNumber : Key → Option Nat
  | .num n => some n
  | .str s => if s.data.isEmpty then some 0 else digitsVal s.data

/-- IndexedDB key equality as used by `delete(k)` on a store whose records have
numeric keys: a string key never equals a numeric key. -/
def keyMatches (k : Key) (n : Nat) : Bool :=
  match k with
  | .num m => m == n
  | .str _ => false

/-- Insertion of a record into a key-ordered store as IndexedDB `add` performs
it: the record lands at its key position; `none` models the `ConstraintError`
raised when the key is already present. -/
def idbAdd (key : α → Nat) (x : α) : List α → Option (List α)
  | [] => some [x]
  | y :: ys =>
    if key x < key y then some (x :: y :: ys)
    else if key x == key y then none
    else (idbAdd key x ys).map (y :: ·)

/-- Insertion-or-replacement as IndexedDB `put` performs it: the record lands at
its key position, replacing any record with the same key. -/
def idbPut (key : α → Nat) (x : α) : List α → List α
  | [] => [x]
  | y :: ys =>
    if key x < key y then x :: y :: ys
    else if key x == key y then x :: ys
    else y :: idbPut key x ys

/-- JavaScript `s.toLowerCase()` on the strings the app stores, character-wise
case folding. -/
def jsToLowerCase (s : String) : String := ⟨s.data.map Char.toLower⟩

/-- Whether the first character list occurs at the head of the second. -/
def leadsWith : List Char → List Char → Bool
  | [], _ => true
  | _ :: _, [] => false
  | c :: cs, d :: ds => c == d && leadsWith cs ds

/-- Whether the first character list occurs contiguously inside the second. -/
def containsSeq (needle : List Char) : List Char → Bool
  | [] => needle.isEmpty
  | hd :: tl => leadsWith needle (hd :: tl) || containsSeq needle tl

/-- JavaScript `hay.includes(needle)` on strings. -/
def jsIncludes (hay needle : String) : Bool := containsSeq needle.data hay.data

/-- Result of `a.localeCompare(b)` as used by the sort comparator of
`listAuthors`.  `String.prototype.localeCompare` is a host builtin absent from
src/; modelled from the spec as a locale-style ordering: primary comparison on
the case-folded strings (hence case-insensitive ordering of distinct names),
raw string order as tie-break, so the result is 0 exactly on identical
strings. -/
def localeCompare (a b : String) : Int :=
  if jsToLowerCase a < jsToLowerCase b then -1
  else if jsToLowerCase b < jsToLowerCase a then 1
  else if a < b then -1
  else if b < a then 1
  else 0

/-- `listAuthors(category, search = '')` (src/app.js:39-53): cursor over the
`byCategory` index restricted to `IDBKeyRange.only(category)` — the matching
records in primary-key order — filtered by the search condition
`!search || a.name.toLowerCase().includes(search.toLowerCase())`, then
`out.sort((a,b)=>a.name.localeCompare(b.name))`, a stable sort ascending by the
comparator. -/
def listAuthors (st : Store) (category : String) (search : String := "") :
    List Author :=
  (st.authors.filter fun a =>
      a.category == category &&
        (search.data.isEmpty ||
          jsIncludes (jsToLowerCase a.name) (jsToLowerCase search))).mergeSort
    fun a b => decide (localeCompare a.name b.name ≤ 0)

/-- `getAuthor(id)` (src/app.js:87-92): point lookup `get(Number(id))` on the
`authors` store; `undefined` (here `none`) when absent. -/
def getAuthor (st : Store) (id : Key) : Option Author :=
  (jsNumber id).bind fun n => st.authors.find? (fun a => a.id == n)

/-- `listPieces(authorId)` (src/app.js:94-107): cursor over the `byAuthor`
index restricted to `IDBKeyRange.only(Number(authorId))` — the matching records
in primary-key order — then `out.sort((a,b)=>b.createdAt-a.createdAt)`, a
stable sort putting larger `createdAt` first.  An unconvertible key makes
`only` throw, producing no record. -/
def listPieces (st : Store) (authorId : Key) : List Piece :=
  match jsNumber authorId with
  | none => []
  | some n =>
    (st.pieces.filter fun p => p.authorId == n).mergeSort
      fun a b => decide (b.createdAt ≤ a.createdAt)

/-- `addPiece(authorId, title, text, favorite=false)` (src/app.js:109-122):
adds `{authorId: Number(authorId), title: title || '', text: text || '',
favorite: !!favorite, createdAt: Date.now()}` under a fresh auto-increment key
and resolves with that key.  On the `String` arguments the callers pass,
`title || ''` and `text || ''` are the identity; `Number` on the numeric
`authorId` the callers pass is the identity; `!!` on a boolean is the identity.
`none` models the add request failing. -/
def addPiece (st : Store) (authorId : Nat) (title text : String)
    (favorite : Bool) (now : Nat) : Option (Store × Nat) :=
  let p : Piece :=
    { id := st.nextPieceId, authorId := authorId, title := title, text := text,
      favorite := favorite, createdAt := now }
  (idbAdd Piece.id p st.pieces).map fun ps =>
    ({ st with pieces := ps, nextPieceId := st.nextPieceId + 1 }, st.nextPieceId)

/-- `getPiece(id)` (src/app.js:124-127): point lookup `get(Number(id))` on the
`pieces` store. -/
def getPiece (st : Store) (id : Key) : Option Piece :=
  (jsNumber id).bind fun n => st.pieces.find? (fun p => p.id == n)

/-- The update object `{title?, text?, favorite?}` handed to `savePiece`: a
property may be present or absent. -/
structure PieceUpdates where
  title : Option String := none
  text : Option String := none
  favorite : Option Bool := none
deriving Repr, DecidableEq

/-- Effect of `Object.assign(p, updates)` for an update object of the shape
`{title?, text?, favorite?}`: exactly the properties present overwrite. -/
def assignUpdates (p : Piece) (u : PieceUpdates) : Piece :=
  { p with
    title := u.title.getD p.title
    text := u.text.getD p.text
    favorite := u.favorite.getD p.favorite }

/-- `savePiece(id, updates)` (src/app.js:129-138): reads the piece via
`getPiece`, mutates it with `Object.assign` and writes it back with `put`.
When `id` names no piece, `getPiece` resolves to `undefined` and
`Object.assign(undefined, updates)` throws a `TypeError`, rejecting the
promise before any write: modelled as `none`. -/
def savePiece (st : Store) (id : Key) (updates : PieceUpdates) : Option Store :=
  match getPiece st id with
  | none => none
  | some p =>
    some { st with pieces := idbPut Piece.id (assignUpdates p updates) st.pieces }

/-- `delPiece(id)` (src/app.js:140-147): `delete(Number(id))` on the `pieces`
store; deleting an absent key succeeds as a no-op. -/
def delPiece (st : Store) (id : Key) : Store :=
  match jsNumber id with
  | none => st
  | some n => { st with pieces := st.pieces.filter fun p => p.id != n }

/-- `deleteAuthor(id)` (src/app.js:76-85): lists the pieces owned by the author
via `listPieces(id)` (which applies `Number`), deletes each via
`delPiece(p.id)`, then deletes the author record with `delete(id)` — the raw
`id`, with no `Number` conversion. -/
def deleteAuthor (st : Store) (id : Key) : Store :=
  let owned := listPieces st id
  let st1 := owned.foldl (fun s p => delPiece s (Key.num p.id)) st
  { st1 with authors := st1.authors.filter fun a => !(keyMatches id a.id) }

/-- JSON value, the shape `JSON.parse` / `JSON.stringify` exchange.  Numbers
are restricted to the naturals the app stores (ids, timestamps, the format
version). -/
inductive JVal where
  | null : JVal
  | bool : Bool → JVal
  | num : Nat → JVal
  | str : String → JVal
  | arr : List JVal → JVal
  | obj : List (String × JVal) → JVal
deriving Repr

/-- Property access `fields.name` on a JSON object's field list. -/
def jLookup (fields : List (String × JVal)) (name : String) : Option JVal :=
  match fields.find? (fun f => f.1 == name) with
  | some f => some f.2
  | none => none

/-- JavaScript truthiness of a JSON value. -/
def truthy : JVal → Bool
  | .null => false
  | .bool b => b
  | .num n => n != 0
  | .str s => !s.data.isEmpty
  | .arr _ => true
  | .obj _ => true

/-- Serialized form of an Author record: the literal's properties in creation
order, the key-path-injected `id` last. -/
def jOfAuthor (a : Author) : JVal :=
  .obj [("name", .str a.name), ("category", .str a.category),
        ("createdAt", .num a.createdAt), ("id", .num a.id)]

/-- Serialized form of a Piece record. -/
def jOfPiece (p : Piece) : JVal :=
  .obj [("authorId", .num p.authorId), ("title", .str p.title),
        ("text", .str p.text), ("favorite", .bool p.favorite),
        ("createdAt", .num p.createdAt), ("id", .num p.id)]

/-- Reading an Author record back out of a JSON value, as `add(a)` persists it
into the typed store; `none` when the value does not carry the record shape. -/
def jToAuthor (v : JVal) : Option Author :=
  match v with
  | .obj fields =>
    match jLookup fields "id", jLookup fields "name", jLookup fields "category",
        jLookup fields "createdAt" with
    | some (.num i), some (.str n), some (.str c), some (.num t) =>
      some { id := i, name := n, category := c, createdAt := t }
    | _, _, _, _ => none
  | _ => none

/-- Reading a Piece record back out of a JSON value. -/
def jToPiece (v : JVal) : Option Piece :=
  match v with
  | .obj fields =>
    match jLookup fields "id", jLookup fields "authorId", jLookup fields "title",
        jLookup fields "text", jLookup fields "favorite",
        jLookup fields "createdAt" with
    | some (.num i), some (.num a), some (.str ti), some (.str te),
        some (.bool f), some (.num c) =>
      some { id := i, authorId := a, title := ti, text := te, favorite := f,
             createdAt := c }
    | _, _, _, _, _, _ => none
  | _ => none

/-- `exportJSON()` (src/app.js:150-162): full cursor scans of both stores in
primary-key order, then `JSON.stringify({version:1, exportedAt:new
Date().toISOString(), authors, pieces}, null, 2)`.  The document is modelled as
the JSON value serialized (stringify then parse round-trip the value); the
wall-clock ISO timestamp is a parameter. -/
def exportJSON (st : Store) (nowIso : String) : JVal :=
  .obj [("version", .num 1), ("exportedAt", .str nowIso),
        ("authors", .arr (st.authors.map jOfAuthor)),
        ("pieces", .arr (st.pieces.map jOfPiece))]

/-- Array that `(data.name || []).map(...)` iterates over: property access on a
non-null parsed value yields the field when the value is an object and
`undefined` otherwise; `undefined` and falsy field values are replaced by `[]`
by `||`; a truthy non-array field makes `.map` throw (`none`). -/
def fieldArray (v : JVal) (name : String) : Option (List JVal) :=
  match v with
  | .obj fields =>
    match jLookup fields name with
    | some (.arr xs) => some xs
    | some w => if truthy w then none else some []
    | none => some []
  | _ => some []

/-- Sequential `add` of the decoded records of a JSON array into a store list,
as the `Promise.all((...).map(a => add(a)))` loop performs it.  Elements that
do not decode to a record of the model's typed shape, and adds that fail on a
duplicate key, are skipped: the source would store such values raw (or leave
its promise pending forever), and no claim exercises either. -/
def addAll (dec : JVal → Option α) (key : α → Nat) (xs : List JVal)
    (init : List α) : List α :=
  xs.foldl (fun acc x =>
    match dec x with
    | some a => (idbAdd key a acc).getD acc
    | none => acc) init

/-- `importJSON(file)` (src/app.js:164-171): `JSON.parse` the file text (a
parse failure rejects before any store access; a parsed value is the `some`
payload), then clear both object stores in one transaction, then re-add every
record of `data.authors || []`, then of `data.pieces || []`, keeping original
ids.  The result pairs whether the promise resolves with the final store
state: property access on a parsed `null` throws only after the clear
transaction has already committed.  (IndexedDB's adjustment of auto-increment
generators on explicit keys is not modelled; no claim concerns it.) -/
def importJSON (st : Store) (doc : Option JVal) : Bool × Store :=
  match doc with
  | none => (false, st)
  | some data =>
    let cleared : Store := { st with authors := [], pieces := [] }
    match data with
    | .null => (false, cleared)
    | _ =>
      match fieldArray data "authors" with
      | none => (false, cleared)
      | some as0 =>
        let st1 := { cleared with authors := addAll jToAuthor Author.id as0 [] }
        match fieldArray data "pieces" with
        | none => (false, st1)
        | some ps0 =>
          (true, { st1 with pieces := addAll jToPiece Piece.id ps0 [] })

/-- Sample store used by the concrete checks: two authors and three pieces. -/
def sampleStore : Store where
  authors :=
    [{ id := 1, name := "Frost", category := "Poems", createdAt := 10 },
     { id := 2, name := "Wilde", category := "Quotes", createdAt := 20 }]
  pieces :=
    [{ id := 1, authorId := 1, title := "Road", text := "Two roads diverged",
       favorite := false, createdAt := 30 },
     { id := 2, authorId := 1, title := "Birches", text := "When I see birches",
       favorite := true, createdAt := 40 },
     { id := 3, authorId := 2, title := "", text := "Be yourself",
       favorite := false, createdAt := 40 }]
  nextAuthorId := 3
  nextPieceId := 4

/-- Empty store as `openDB` first creates it: no records, generators at 1. -/
def emptyStore : Store :=
  { authors := [], pieces := [], nextAuthorId := 1, nextPieceId := 1 }

/-- Property access `doc.name` on a parsed JSON document: the field when the
document is an object carrying it, `undefined` (`none`) otherwise. -/
def docField (v : JVal) (name : String) : Option JVal :=
  match v with
  | .obj fields => jLookup fields name
  | _ => none

/-- Store with two pieces of equal `createdAt` under author 1, exercising the
tie-break of the `listPieces` sort. -/
def tieStore : Store where
  authors := [{ id := 1, name := "Frost", category := "Poems", createdAt := 5 }]
  pieces :=
    [{ id := 1, authorId := 1, title := "A", text := "first", favorite := false,
       createdAt := 7 },
     { id := 2, authorId := 1, title := "B", text := "second", favorite := false,
       createdAt := 7 }]
  nextAuthorId := 2
  nextPieceId := 3

/-- Resulting state of adding one more piece for author 1 to the sample
store. -/
def sampleStoreAdded : Store where
  authors := sampleStore.authors
  pieces := sampleStore.pieces ++
    [{ id := 4, authorId := 1, title := "New", text := "body", favorite := false,
       createdAt := 99 }]
  nextAuthorId := 3
  nextPieceId := 5

/-! ### Basic facts about the store primitives -/

theorem delPiece_num (st : Store) (n : Nat) :
    delPiece st (Key.num n)
      = { st with pieces := st.pieces.filter fun p => p.id != n } := rfl

theorem foldl_delPiece (l : List Piece) (st : Store) :
    l.foldl (fun s p => delPiece s (Key.num p.id)) st
      = { st with
          pieces := st.pieces.filter fun q => l.all fun p => p.id != q.id } := by
  induction l generalizing st with
  | nil => simp
  | cons p l ih =>
    rw [List.foldl_cons, ih]
    simp only [delPiece_num, List.filter_filter]
    congr 1
    apply List.filter_congr
    intro q _
    rw [List.all_cons, Bool.and_comm]
    congr 1
    simp only [bne]
    rw [Bool.beq_comm]

theorem deleteAuthor_eq (st : Store) (k : Key) :
    deleteAuthor st k
      = { st with
          authors := st.authors.filter fun a => !(keyMatches k a.id),
          pieces := st.pieces.filter fun q =>
            (listPieces st k).all fun p => p.id != q.id } := by
  dsimp only [deleteAuthor]
  rw [foldl_delPiece]

theorem mem_listPieces {st : Store} {n : Nat} {p : Piece} :
    p ∈ listPieces st (Key.num n) ↔ p ∈ st.pieces ∧ p.authorId = n := by
  simp [listPieces, jsNumber, List.mem_filter]

theorem listPieces_deleteAuthor_num (st : Store) (A : Nat) :
    listPieces (deleteAuthor st (Key.num A)) (Key.num A) = [] := by
  rw [deleteAuthor_eq]
  show ((List.filter _ st.pieces).filter fun p => p.authorId == A).mergeSort _ = []
  rw [List.filter_filter]
  have h : st.pieces.filter (fun q =>
      (q.authorId == A) && (listPieces st (Key.num A)).all fun p => p.id != q.id) = [] := by
    rw [List.filter_eq_nil_iff]
    intro q hq
    simp only [Bool.and_eq_true, beq_iff_eq, List.all_eq_true, bne_iff_ne, ne_eq]
    rintro ⟨hqa, hall⟩
    exact hall q (mem_listPieces.mpr ⟨hq, hqa⟩) rfl
  rw [h, List.mergeSort_nil]

theorem getAuthor_deleteAuthor_num (st : Store) (A : Nat) :
    getAuthor (deleteAuthor st (Key.num A)) (Key.num A) = none := by
  rw [deleteAuthor_eq]
  show ((st.authors.filter fun a => !(keyMatches (Key.num A) a.id)).find?
      fun a => a.id == A) = none
  rw [List.find?_eq_none]
  intro a ha
  have := (List.mem_filter.mp ha).2
  simp only [keyMatches, Bool.not_eq_true', beq_eq_false_iff_ne, ne_eq] at this
  simp only [beq_iff_eq]
  omega

theorem deleteAuthor_str_authors (st : Store) (s : String) :
    (deleteAuthor st (Key.str s)).authors = st.authors := by
  rw [deleteAuthor_eq]
  show st.authors.filter _ = st.authors
  simp [keyMatches]

/-! ### C1, C8: cascading delete -/

/-- C1: after `deleteAuthor(A)` completes on an author id `A`, `getAuthor(A)`
is absent, `listPieces(A)` is empty, and `getPiece` is absent for every piece
owned by `A` before the call, for any number (including zero) of prior pieces
under `A`. -/
theorem deleteAuthorCascade_clears (st : Store) (A : Nat) :
    getAuthor (deleteAuthor st (Key.num A)) (Key.num A) = none ∧
    listPieces (deleteAuthor st (Key.num A)) (Key.num A) = [] ∧
    ∀ p ∈ st.pieces, p.authorId = A →
      getPiece (deleteAuthor st (Key.num A)) (Key.num p.id) = none := by
  refine ⟨getAuthor_deleteAuthor_num st A, listPieces_deleteAuthor_num st A, ?_⟩
  intro p hp hpa
  rw [deleteAuthor_eq]
  show ((st.pieces.filter _).find? fun q => q.id == p.id) = none
  rw [List.find?_eq_none]
  intro q hq
  have h2 := (List.mem_filter.mp hq).2
  simp only [List.all_eq_true, bne_iff_ne, ne_eq] at h2
  have hmem : p ∈ listPieces st (Key.num A) := mem_listPieces.mpr ⟨hp, hpa⟩
  simp only [beq_iff_eq]
  intro hqp
  exact h2 p hmem hqp.symm

/-- Witness for C1 at the sample store. -/
theorem deleteAuthorCascade_clears_witness :
    getAuthor (deleteAuthor sampleStore (Key.num 1)) (Key.num 1) = none ∧
    listPieces (deleteAuthor sampleStore (Key.num 1)) (Key.num 1) = [] ∧
    ∀ p ∈ sampleStore.pieces, p.authorId = 1 →
      getPiece (deleteAuthor sampleStore (Key.num 1)) (Key.num p.id) = none :=
  deleteAuthorCascade_clears sampleStore 1

/-- C8: re-invoking `deleteAuthor(A)` after it already completed re-scans an
empty owned set and re-filters away an already absent author: the store is
unchanged (and the call succeeds; the model is a total function because the
underlying deletes succeed as no-ops on absent keys). -/
theorem deleteAuthorCascade_idempotent (st : Store) (A : Nat) :
    deleteAuthor (deleteAuthor st (Key.num A)) (Key.num A)
      = deleteAuthor st (Key.num A) := by
  rw [deleteAuthor_eq (deleteAuthor st (Key.num A)), listPieces_deleteAuthor_num]
  rw [deleteAuthor_eq st]
  simp [List.filter_filter]

/-! ### C3: savePiece on an absent id -/

/-- C3 (code bug): the spec promises `updatePiece` is a successful no-op when
the id is absent, but `savePiece` reaches `Object.assign(undefined, updates)`
(its `getPiece` resolved `undefined`) and throws a `TypeError`: on the empty
store, updating piece 1 rejects (`none`) instead of resolving with the store
unchanged. -/
theorem savePiece_absent_throws :
    savePiece emptyStore (Key.num 1) { favorite := some true } = none := rfl

/-! ### C10: key conversion at the point operations -/

/-- C10: every point operation addresses the record keyed by `Number(id)`, so
a numeric string and the number itself address the same record; the author
deletion inside the cascade uses the raw key, which never matches a numeric
key when the id is a string, so it agrees with the point operations only for
ids passed as numbers. -/
theorem pointOps_address_by_number (st : Store) (k : Key) (n : Nat)
    (s : String) (u : PieceUpdates) (h : jsNumber k = some n) :
    getAuthor st k = getAuthor st (Key.num n) ∧
    getPiece st k = getPiece st (Key.num n) ∧
    savePiece st k u = savePiece st (Key.num n) u ∧
    delPiece st k = delPiece st (Key.num n) ∧
    (deleteAuthor st (Key.str s)).authors = st.authors ∧
    (deleteAuthor st (Key.num n)).authors
      = st.authors.filter fun a => a.id != n := by
  have hgp : getPiece st k = getPiece st (Key.num n) := by
    simp only [getPiece]; rw [h]; rfl
  refine ⟨?_, hgp, ?_, ?_, deleteAuthor_str_authors st s, ?_⟩
  · simp only [getAuthor]; rw [h]; rfl
  · simp only [savePiece, hgp]
  · simp only [delPiece]; rw [h]; rfl
  · rw [deleteAuthor_eq]
    show st.authors.filter _ = _
    apply List.filter_congr
    intro a _
    simp only [keyMatches, bne]
    rw [Bool.beq_comm]

/-- Witness for C10: the string key "3" and the number 3 address the same
record of the sample store. -/
theorem pointOps_address_by_number_witness :
    jsNumber (Key.str "3") = some 3 ∧
    (getAuthor sampleStore (Key.str "3") = getAuthor sampleStore (Key.num 3) ∧
     getPiece sampleStore (Key.str "3") = getPiece sampleStore (Key.num 3) ∧
     savePiece sampleStore (Key.str "3") {} = savePiece sampleStore (Key.num 3) {} ∧
     delPiece sampleStore (Key.str "3") = delPiece sampleStore (Key.num 3) ∧
     (deleteAuthor sampleStore (Key.str "2")).authors = sampleStore.authors ∧
     (deleteAuthor sampleStore (Key.num 3)).authors
       = sampleStore.authors.filter fun a => a.id != 3) :=
  ⟨by decide, pointOps_address_by_number sampleStore (Key.str "3") 3 "2" {} (by decide)⟩

/-! ### C6: export document shape -/

/-- C6 fails as stated: the exported document carries no `formatVersion`
field; its version field is named `version`. -/
theorem exportJSON_no_formatVersion :
    docField (exportJSON sampleStore "2026-01-01T00:00:00.000Z") "formatVersion"
      = none := rfl

/-- C6 (amended): the exported document's version field is named `version`,
holding the integer 1, alongside `exportedAt`, `authors` and `pieces`, the two
record arrays carrying the records' original `id` values. -/
theorem exportJSON_fields (st : Store) (nowIso : String) :
    docField (exportJSON st nowIso) "version" = some (.num 1) ∧
    docField (exportJSON st nowIso) "exportedAt" = some (.str nowIso) ∧
    docField (exportJSON st nowIso) "authors"
      = some (.arr (st.authors.map jOfAuthor)) ∧
    docField (exportJSON st nowIso) "pieces"
      = some (.arr (st.pieces.map jOfPiece)) ∧
    (st.authors.map jOfAuthor).map (fun v => docField v "id")
      = st.authors.map (fun a => some (.num a.id)) ∧
    (st.pieces.map jOfPiece).map (fun v => docField v "id")
      = st.pieces.map (fun p => some (.num p.id)) := by
  refine ⟨rfl, rfl, rfl, rfl, ?_, ?_⟩
  · rw [List.map_map]
    apply List.map_congr_left
    intro a _
    rfl
  · rw [List.map_map]
    apply List.map_congr_left
    intro p _
    rfl

/-! ### C7: malformed restore input -/

/-- C7 fails as stated: the parseable document `null` lacks the expected shape
and makes the restore fail, but only after the clear step already committed:
on the sample store the failing import does not leave the store unchanged. -/
theorem importJSON_null_after_clear :
    importJSON sampleStore (some JVal.null)
      = (false, { sampleStore with authors := [], pieces := [] }) ∧
    (importJSON sampleStore (some JVal.null)).2 ≠ sampleStore := by
  refine ⟨rfl, ?_⟩
  decide

/-- C7 (amended): an unparseable restore input fails before any store access
and leaves the store unchanged; a parseable document merely missing the
`authors` or `pieces` arrays is treated as holding empty arrays (the restore
resolves, with an emptied dataset); but a parseable document on which property
access throws (JSON `null`) fails only after the clear step has already
emptied both record stores. -/
theorem importJSON_malformed (st : Store) :
    importJSON st none = (false, st) ∧
    importJSON st (some (JVal.obj []))
      = (true, { st with authors := [], pieces := [] }) ∧
    importJSON st (some JVal.null)
      = (false, { st with authors := [], pieces := [] }) :=
  ⟨rfl, rfl, rfl⟩

/-! ### C9: referential integrity at piece creation -/

/-- C9 fails as stated: `addPiece` performs no existence check on `authorId`;
on the empty store a piece is persisted whose `authorId` 7 names no author at
the moment of the call. -/
theorem addPiece_unchecked_reference :
    getAuthor emptyStore (Key.num 7) = none ∧
    (addPiece emptyStore 7 "t" "x" false 5).map (fun r => r.1.pieces)
      = some [{ id := 1, authorId := 7, title := "t", text := "x",
                favorite := false, createdAt := 5 }] :=
  ⟨rfl, rfl⟩

theorem mem_of_idbAdd {key : α → Nat} {x : α} {l l' : List α}
    (h : idbAdd key x l = some l') : x ∈ l' := by
  induction l generalizing l' with
  | nil =>
    rw [idbAdd] at h
    cases h
    exact List.mem_singleton_self x
  | cons y ys ih =>
    rw [idbAdd] at h
    split at h
    · cases h; exact List.mem_cons_self x _
    · split at h
      · cases h
      · obtain ⟨zs, hzs, h2⟩ := Option.map_eq_some'.mp h
        cases h2
        exact List.mem_cons_of_mem y (ih hzs)

/-- C9 (amended): the store does not enforce the referential invariant;
`addPiece` records the given `authorId` verbatim, so the invariant holds at
creation exactly for the calls whose `authorId` names an existing author —
the discipline the UI follows (it only calls `addPiece` with the id of an
author it just looked up). -/
theorem addPiece_ref_intact (st : Store) (aid : Nat) (ti te : String)
    (fav : Bool) (now : Nat) (st' : Store) (pid : Nat)
    (hok : addPiece st aid ti te fav now = some (st', pid))
    (hauth : (getAuthor st (Key.num aid)).isSome) :
    ∃ p ∈ st'.pieces, p.id = pid ∧ p.authorId = aid ∧
      (getAuthor st (Key.num p.authorId)).isSome := by
  dsimp only [addPiece] at hok
  obtain ⟨ps, hps, h2⟩ := Option.map_eq_some'.mp hok
  cases h2
  exact ⟨_, mem_of_idbAdd hps, rfl, rfl, hauth⟩

/-- Witness for C9's amended theorem at the sample store. -/
theorem addPiece_ref_intact_witness :
    ∃ p ∈ sampleStoreAdded.pieces, p.id = 4 ∧ p.authorId = 1 ∧
      (getAuthor sampleStore (Key.num p.authorId)).isSome :=
  addPiece_ref_intact sampleStore 1 "New" "body" false 99 sampleStoreAdded 4
    (by decide) (by decide)

/-! ### C2: export/import round trip -/

theorem jToAuthor_jOfAuthor (a : Author) : jToAuthor (jOfAuthor a) = some a := rfl

theorem jToPiece_jOfPiece (p : Piece) : jToPiece (jOfPiece p) = some p := rfl

theorem idbAdd_of_lt {key : α → Nat} {x : α} {l : List α}
    (h : ∀ y ∈ l, key y < key x) : idbAdd key x l = some (l ++ [x]) := by
  induction l with
  | nil => rfl
  | cons y ys ih =>
    have hy := h y (List.mem_cons_self y ys)
    rw [idbAdd, if_neg (by omega), if_neg (by simp only [beq_iff_eq]; omega),
      ih (fun z hz => h z (List.mem_cons_of_mem y hz))]
    rfl

theorem addAll_cons {dec : JVal → Option α} {key : α → Nat} (x : JVal)
    (xs : List JVal) (init : List α) :
    addAll dec key (x :: xs) init
      = addAll dec key xs
          (match dec x with
           | some a => (idbAdd key a init).getD init
           | none => init) := rfl

/-- Re-adding an encoded, strictly key-ascending record list into an
accumulator lying strictly below it rebuilds the records in place. -/
theorem addAll_map_rebuild {enc : α → JVal} {dec : JVal → Option α}
    {key : α → Nat} (hde : ∀ a, dec (enc a) = some a) (l : List α) :
    ∀ acc : List α, (∀ a ∈ acc, ∀ b ∈ l, key a < key b) →
      l.Pairwise (fun a b => key a < key b) →
      addAll dec key (l.map enc) acc = acc ++ l := by
  induction l with
  | nil => intro acc _ _; simp [addAll]
  | cons b l ih =>
    intro acc hcross hsort
    rw [List.map_cons, addAll_cons, hde b]
    dsimp only
    rw [idbAdd_of_lt (fun z hz => hcross z hz b (List.mem_cons_self b l)),
      Option.getD_some]
    rw [ih (acc ++ [b]) ?_ (List.pairwise_cons.mp hsort).2]
    · simp
    · intro a ha c hc
      rcases List.mem_append.mp ha with ha | ha
      · exact hcross a ha c (List.mem_cons_of_mem b hc)
      · rw [List.mem_singleton.mp ha]
        exact (List.pairwise_cons.mp hsort).1 c hc

/-- C2: restoring the export of a store (no concurrent writes in the model)
resolves and leaves the dataset observably identical — both record lists come
back with the same records, same field values and same ids. -/
theorem export_import_roundTrip (st : Store) (nowIso : String) (hwf : st.WF) :
    importJSON st (some (exportJSON st nowIso)) = (true, st) := by
  obtain ⟨hwa, hwp⟩ := hwf
  have h1 : importJSON st (some (exportJSON st nowIso))
      = (true, { st with
          authors := addAll jToAuthor Author.id (st.authors.map jOfAuthor) [],
          pieces := addAll jToPiece Piece.id (st.pieces.map jOfPiece) [] }) := rfl
  rw [h1, addAll_map_rebuild jToAuthor_jOfAuthor _ [] (by simp) hwa,
    addAll_map_rebuild jToPiece_jOfPiece _ [] (by simp) hwp]
  simp

/-- Witness for C2 at the sample store. -/
theorem export_import_roundTrip_witness :
    sampleStore.WF ∧
      importJSON sampleStore (some (exportJSON sampleStore "2026-01-01"))
        = (true, sampleStore) :=
  ⟨by decide, export_import_roundTrip sampleStore "2026-01-01" (by decide)⟩

/-! ### Stability of the listing sorts -/

/-- A stable sort leaves the subsequence of mutually tied elements selected by
`p` exactly where the cursor produced it. -/
theorem filter_mergeSort_of_tied {le : α → α → Bool} {p : α → Bool}
    (trans : ∀ (a b c : α), le a b → le b c → le a c)
    (total : ∀ (a b : α), le a b || le b a)
    (l : List α) (tied : ∀ a b, p a → p b → le a b) :
    (l.mergeSort le).filter p = l.filter p := by
  have hpw : (l.filter p).Pairwise fun a b => le a b := by
    apply List.pairwise_of_forall_mem_list
    intro a ha b hb
    exact tied a b (List.of_mem_filter ha) (List.of_mem_filter hb)
  have hsub : List.Sublist (l.filter p) (l.mergeSort le) :=
    List.sublist_mergeSort trans total hpw (List.filter_sublist l)
  have hsub2 : List.Sublist (l.filter p) ((l.mergeSort le).filter p) := by
    have h2 := hsub.filter p
    rw [List.filter_filter] at h2
    simpa [Bool.and_self] using h2
  have hperm : List.Perm ((l.mergeSort le).filter p) (l.filter p) :=
    (List.mergeSort_perm l le).filter p
  exact (hsub2.eq_of_length hperm.length_eq.symm).symm

/-- When every fixed-`createdAt` slice of a piece list is in ascending id
order, ties on `createdAt` are in ascending id order across the list. -/
theorem pairwise_tie_of_filters {l : List Piece}
    (h : ∀ t, (l.filter fun q => q.createdAt == t).Pairwise
      fun a b => a.id < b.id) :
    l.Pairwise fun a b => a.createdAt = b.createdAt → a.id < b.id := by
  induction l with
  | nil => exact List.Pairwise.nil
  | cons a l ih =>
    refine List.Pairwise.cons ?_ (ih ?_)
    · intro b hb hab
      have ht := h a.createdAt
      rw [List.filter_cons_of_pos (by simp)] at ht
      exact List.rel_of_pairwise_cons ht
        (List.mem_filter.mpr ⟨hb, by simp [hab]⟩)
    · intro t
      have ht := h t
      by_cases hc : a.createdAt = t
      · rw [List.filter_cons_of_pos (by simp [hc])] at ht
        exact (List.pairwise_cons.mp ht).2
      · rwa [List.filter_cons_of_neg (by simp [hc])] at ht

/-! ### C4: ordering of listPieces -/

/-- C4 fails as stated: both pieces of the tie store carry `createdAt = 7`,
and `listPieces` returns them in ascending insertion order (ids [1, 2]), not
the claimed descending insertion order ([2, 1]). -/
theorem listPieces_tie_break_counterexample :
    (listPieces tieStore (Key.num 1)).map Piece.id = [1, 2] ∧
    (listPieces tieStore (Key.num 1)).map Piece.id ≠ [2, 1] := by
  have h : (listPieces tieStore (Key.num 1)).map Piece.id = [1, 2] := by
    simp [listPieces, tieStore, jsNumber, List.mergeSort]
  exact ⟨h, by rw [h]; decide⟩

/-- C4 (amended): `listPieces(A)` returns exactly the pieces whose `authorId`
is `A`, sorted by `createdAt` descending, with ties on `createdAt` broken by
ascending insertion (key) order: the pieces of any fixed `createdAt` appear in
cursor order, ascending by id. -/
theorem listPieces_ordered (st : Store) (A : Nat) (hwf : st.WF) :
    (∀ p, p ∈ listPieces st (Key.num A) ↔ p ∈ st.pieces ∧ p.authorId = A) ∧
    (listPieces st (Key.num A)).Pairwise
      (fun a b => b.createdAt ≤ a.createdAt) ∧
    (∀ t, (listPieces st (Key.num A)).filter (fun q => q.createdAt == t)
      = (st.pieces.filter fun p => p.authorId == A).filter
          (fun q => q.createdAt == t)) ∧
    (listPieces st (Key.num A)).Pairwise
      (fun a b => a.createdAt = b.createdAt → a.id < b.id) := by
  have htrans : ∀ (a b c : Piece), decide (b.createdAt ≤ a.createdAt) →
      decide (c.createdAt ≤ b.createdAt) →
      decide (c.createdAt ≤ a.createdAt) := by
    intro a b c h1 h2
    simp only [decide_eq_true_iff] at *
    omega
  have htotal : ∀ (a b : Piece), (decide (b.createdAt ≤ a.createdAt)
      || decide (a.createdAt ≤ b.createdAt)) = true := by
    intro a b
    simp only [Bool.or_eq_true, decide_eq_true_iff]
    omega
  have hLP : listPieces st (Key.num A)
      = (st.pieces.filter fun p => p.authorId == A).mergeSort
          (fun a b => decide (b.createdAt ≤ a.createdAt)) := rfl
  have h3 : ∀ t, (listPieces st (Key.num A)).filter (fun q => q.createdAt == t)
      = (st.pieces.filter fun p => p.authorId == A).filter
          (fun q => q.createdAt == t) := by
    intro t
    rw [hLP]
    apply filter_mergeSort_of_tied htrans htotal
    intro a b ha hb
    simp only [beq_iff_eq] at ha hb
    simp [ha, hb]
  refine ⟨fun p => mem_listPieces, ?_, h3, ?_⟩
  · rw [hLP]
    exact (List.sorted_mergeSort htrans htotal _).imp
      (fun h => of_decide_eq_true h)
  · apply pairwise_tie_of_filters
    intro t
    rw [h3 t]
    exact List.Pairwise.filter _ (List.Pairwise.filter _ hwf.2)

/-- Witness for C4's amended theorem: the sample store listing is sorted
newest-first. -/
theorem listPieces_ordered_witness :
    (listPieces sampleStore (Key.num 1)).Pairwise
      (fun a b => b.createdAt ≤ a.createdAt) :=
  (listPieces_ordered sampleStore 1 (by decide)).2.1

/-! ### C5: ordering of listAuthors -/

theorem localeCompare_self (a : String) : localeCompare a a = 0 := by
  simp [localeCompare]

theorem localeCompare_le_iff {a b : String} :
    localeCompare a b ≤ 0 ↔
      (jsToLowerCase a < jsToLowerCase b ∨
        (jsToLowerCase a = jsToLowerCase b ∧ a ≤ b)) := by
  unfold localeCompare
  split_ifs with h1 h2 h3 h4
  · exact iff_of_true (by norm_num) (Or.inl h1)
  · refine iff_of_false (by norm_num) ?_
    rintro (hx | ⟨hx, -⟩)
    · exact h1 hx
    · exact absurd h2 (by rw [hx]; exact lt_irrefl _)
  · have heq : jsToLowerCase a = jsToLowerCase b :=
      le_antisymm (not_lt.mp h2) (not_lt.mp h1)
    exact iff_of_true (by norm_num) (Or.inr ⟨heq, le_of_lt h3⟩)
  · refine iff_of_false (by norm_num) ?_
    rintro (hx | ⟨-, hx⟩)
    · exact h1 hx
    · exact absurd h4 (not_lt.mpr hx)
  · have heq : jsToLowerCase a = jsToLowerCase b :=
      le_antisymm (not_lt.mp h2) (not_lt.mp h1)
    exact iff_of_true le_rfl (Or.inr ⟨heq, not_lt.mp h4⟩)

theorem authorLe_trans (a b c : Author)
    (h1 : decide (localeCompare a.name b.name ≤ 0) = true)
    (h2 : decide (localeCompare b.name c.name ≤ 0) = true) :
    decide (localeCompare a.name c.name ≤ 0) = true := by
  rw [decide_eq_true_iff, localeCompare_le_iff] at h1 h2 ⊢
  rcases h1 with h1 | ⟨h1, h1'⟩ <;> rcases h2 with h2 | ⟨h2, h2'⟩
  · exact Or.inl (lt_trans h1 h2)
  · exact Or.inl (h2 ▸ h1)
  · exact Or.inl (h1.le.trans_lt h2)
  · exact Or.inr ⟨h1.trans h2, le_trans h1' h2'⟩

theorem authorLe_total (a b : Author) :
    (decide (localeCompare a.name b.name ≤ 0)
      || decide (localeCompare b.name a.name ≤ 0)) = true := by
  rw [Bool.or_eq_true, decide_eq_true_iff, decide_eq_true_iff,
    localeCompare_le_iff, localeCompare_le_iff]
  rcases lt_trichotomy (jsToLowerCase a.name) (jsToLowerCase b.name) with h | h | h
  · exact Or.inl (Or.inl h)
  · rcases le_total a.name b.name with h2 | h2
    · exact Or.inl (Or.inr ⟨h, h2⟩)
    · exact Or.inr (Or.inr ⟨h.symm, h2⟩)
  · exact Or.inr (Or.inl h)

/-- With the default empty search string, the search condition passes every
record: `listAuthors` is the sorted category slice. -/
theorem listAuthors_default (st : Store) (C : String) :
    listAuthors st C
      = (st.authors.filter fun a => a.category == C).mergeSort
          (fun a b => decide (localeCompare a.name b.name ≤ 0)) := by
  unfold listAuthors
  congr 1
  apply List.filter_congr
  intro a _
  have he : "".data.isEmpty = true := rfl
  simp [he]

/-- C5: `listAuthors(C)` returns exactly the authors whose category is `C`
(an author created under C appears in no other category's listing), sorted
ascending by the modelled locale comparison — in particular ascending on the
case-folded names, i.e. case-insensitively — and authors with identical names
stay in cursor (insertion) order. -/
theorem listAuthors_sorted (st : Store) (C N : String) :
    (∀ a, a ∈ listAuthors st C ↔ a ∈ st.authors ∧ a.category = C) ∧
    (listAuthors st C).Pairwise
      (fun a b => localeCompare a.name b.name ≤ 0) ∧
    (listAuthors st C).Pairwise
      (fun a b => jsToLowerCase a.name ≤ jsToLowerCase b.name) ∧
    (listAuthors st C).filter (fun a => a.name == N)
      = st.authors.filter (fun a => a.category == C && a.name == N) := by
  rw [listAuthors_default]
  refine ⟨?_, ?_, ?_, ?_⟩
  · intro a
    simp [List.mem_filter]
  · exact (List.sorted_mergeSort authorLe_trans authorLe_total _).imp
      (fun h => of_decide_eq_true h)
  · apply (List.sorted_mergeSort authorLe_trans authorLe_total _).imp
    intro a b h
    rcases localeCompare_le_iff.mp (of_decide_eq_true h) with h2 | ⟨h2, -⟩
    · exact le_of_lt h2
    · exact le_of_eq h2
  · rw [filter_mergeSort_of_tied authorLe_trans authorLe_total _ ?_,
      List.filter_filter]
    · apply List.filter_congr
      intro a _
      rw [Bool.and_comm]
    · intro a b ha hb
      have ha' : a.name = N := by simpa using ha
      have hb' : b.name = N := by simpa using hb
      rw [decide_eq_true_iff, ha', hb', localeCompare_self]
